import Mathlib

set_option linter.unusedVariables false

/-! Shallow embedding of the cross-validation training orchestrator of
train.py: per-epoch metrics, the per-fold best trackers, the per-fold log,
the fold loop with its resume skip, and the two summary tables. -/

/-- Scalar metrics produced by one epoch: train metrics returned by train()
and validation metrics returned by validate() (train.py lines 508-512). -/
structure EpochMetrics where
  loss : ℚ
  score : ℚ
  ac_score : ℚ
  f1_score : ℚ
  val_loss : ℚ
  val_score : ℚ
  val_ac_score : ℚ
  val_f1_score : ℚ
  deriving DecidableEq

/-- One row of the per-fold log csv (train.py lines 480-534): the nine
columns epoch, loss, score, ac_score, f1_score, val_loss, val_score,
val_ac_score, val_f1_score. -/
structure LogRow where
  epoch : ℕ
  loss : ℚ
  score : ℚ
  ac_score : ℚ
  f1_score : ℚ
  val_loss : ℚ
  val_score : ℚ
  val_ac_score : ℚ
  val_f1_score : ℚ
  deriving DecidableEq

/-- Log row recorded for epoch e (train.py lines 524-532). -/
def mkRow (e : ℕ) (m : EpochMetrics) : LogRow :=
  ⟨e, m.loss, m.score, m.ac_score, m.f1_score,
   m.val_loss, m.val_score, m.val_ac_score, m.val_f1_score⟩

/-- Log rows for consecutive epochs starting at index e0: the log dict grows
by one appended row per completed epoch. -/
def logRowsFrom (e0 : ℕ) : List EpochMetrics → List LogRow
  | [] => []
  | m :: rest => mkRow e0 m :: logRowsFrom (e0 + 1) rest

/-- Content of the log csv after epoch e completes: the full table is
rewritten with one row per completed epoch 0..e (train.py line 534). -/
def logAfter (ms : List EpochMetrics) (e : ℕ) : List LogRow :=
  logRowsFrom 0 (ms.take (e + 1))

/-- One best-model snapshot: the five variables best_loss, best_score,
best_ac_score, best_f1_score, best_epoch (train.py lines 492-502). -/
structure BestSnap where
  loss : WithTop ℚ
  score : ℚ
  ac_score : ℚ
  f1_score : ℚ
  epoch : ℕ
  deriving DecidableEq

/-- Initial tracker values (train.py lines 492-502): best_loss is the float
inf, the scores are 0, best_epoch is 0. -/
def initBest : BestSnap := ⟨⊤, 0, 0, 0, 0⟩

/-- Snapshot taken from the validation metrics of epoch e. -/
def mkSnap (e : ℕ) (m : EpochMetrics) : BestSnap :=
  ⟨(m.val_loss : WithTop ℚ), m.val_score, m.val_ac_score, m.val_f1_score, e⟩

/-- Secondary tracker update (train.py lines 545-551): the snapshot is
replaced exactly when val_ac_score strictly exceeds best_ac_score_1. -/
def stepBest1 (b : BestSnap) (e : ℕ) (m : EpochMetrics) : BestSnap :=
  if m.val_ac_score > b.ac_score then mkSnap e m else b

/-- Files written inside the fold loop, relative to models/<name>/. -/
inductive FName where
  | log (fold : ℕ)
  | adj (fold : ℕ)
  | results
  | results1
  | modelCkpt (fold : ℕ)
  deriving DecidableEq

/-- Running state of one trained fold: the two trackers, the file writes
made so far, and the epochs at which the adjacency pickle was dumped. -/
structure FoldRun where
  best : BestSnap
  best1 : BestSnap
  writes : List FName
  adjEpochs : List ℕ
  deriving DecidableEq

/-- One epoch of the fold loop body (train.py lines 504-552): rewrite the
log csv, then dump the adjacency pickle and replace the primary snapshot
when val_score strictly exceeds best_score, and independently replace the
secondary snapshot when val_ac_score strictly exceeds best_ac_score_1. -/
def foldEpochStep (fnum : ℕ) (fr : FoldRun) (e : ℕ) (m : EpochMetrics) : FoldRun :=
  if m.val_score > fr.best.score then
    { best := mkSnap e m, best1 := stepBest1 fr.best1 e m,
      writes := fr.writes ++ [FName.log fnum, FName.adj fnum],
      adjEpochs := fr.adjEpochs ++ [e] }
  else
    { best := fr.best, best1 := stepBest1 fr.best1 e m,
      writes := fr.writes ++ [FName.log fnum],
      adjEpochs := fr.adjEpochs }

/-- Epoch loop from epoch index e onward. -/
def runFoldAux (fnum : ℕ) (e : ℕ) (fr : FoldRun) : List EpochMetrics → FoldRun
  | [] => fr
  | m :: rest => runFoldAux fnum (e + 1) (foldEpochStep fnum fr e m) rest

/-- Whole epoch loop of a trained fold, one EpochMetrics per epoch
(train.py lines 504-552). -/
def runFold (fnum : ℕ) (ms : List EpochMetrics) : FoldRun :=
  runFoldAux fnum 0 ⟨initBest, initBest, [], []⟩ ms

/-- One row of results.csv or results_1.csv: fold = none encodes the
trailing mean label, best_epoch = none encodes the empty cell that the mean
row carries in the best_epoch column. -/
structure SummaryRow where
  fold : Option ℕ
  best_loss : WithTop ℚ
  best_score : ℚ
  best_ac_score : ℚ
  best_f1_score : ℚ
  best_epoch : Option ℕ
  deriving DecidableEq

/-- Data rows of a summary table from the six parallel column lists; none
models the pandas ValueError raised when the lists have unequal lengths
(train.py lines 577-584). -/
def rowsOf : List ℕ → List (WithTop ℚ) → List ℚ → List ℚ → List ℚ → List ℕ →
    Option (List SummaryRow)
  | [], [], [], [], [], [] => some []
  | f :: fs, l :: ls, s :: ss, a :: acs, g :: gs, e :: es =>
    (rowsOf fs ls ss acs gs es).map (fun rows => ⟨some f, l, s, a, g, some e⟩ :: rows)
  | _, _, _, _, _, _ => none

/-- Trailing mean row: np.mean of each numeric column; a best_loss equal to
inf makes the mean inf, matching numpy. -/
def meanRow (ls : List (WithTop ℚ)) (ss acs gs : List ℚ) : SummaryRow :=
  ⟨none, ls.sum.map (fun q => q / (ls.length : ℚ)),
   ss.sum / (ss.length : ℚ), acs.sum / (acs.length : ℚ),
   gs.sum / (gs.length : ℚ), none⟩

/-- Summary table: data rows (when the column lists agree in length) plus
the trailing mean row (train.py lines 577-593). -/
def mkTable (fs : List ℕ) (ls : List (WithTop ℚ)) (ss acs gs : List ℚ) (es : List ℕ) :
    Option (List SummaryRow) :=
  (rowsOf fs ls ss acs gs es).map (fun rows => rows ++ [meanRow ls ss acs gs])

/-- The eleven accumulator lists of the run orchestrator (train.py lines
366-377). -/
structure RunState where
  folds : List ℕ
  best_losses : List (WithTop ℚ)
  best_scores : List ℚ
  best_ac_scores : List ℚ
  best_f1_scores : List ℚ
  best_epochs : List ℕ
  best_losses_1 : List (WithTop ℚ)
  best_scores_1 : List ℚ
  best_ac_scores_1 : List ℚ
  best_f1_scores_1 : List ℚ
  best_epochs_1 : List ℕ
  deriving DecidableEq

def initState : RunState := ⟨[], [], [], [], [], [], [], [], [], [], []⟩

/-- Content of results.csv (train.py lines 577-584, written at line 597). -/
def mkResults (st : RunState) : Option (List SummaryRow) :=
  mkTable st.folds st.best_losses st.best_scores st.best_ac_scores
    st.best_f1_scores st.best_epochs

/-- Content of results_1.csv (train.py lines 586-593, written at 598). -/
def mkResults1 (st : RunState) : Option (List SummaryRow) :=
  mkTable st.folds st.best_losses_1 st.best_scores_1 st.best_ac_scores_1
    st.best_f1_scores_1 st.best_epochs_1

/-- Resume branch appends (train.py lines 386-389): the fold number plus the
best log row values val_loss, val_score, val_ac_score only; the f1, epoch
and all secondary lists are left untouched. -/
def pushResume (fnum : ℕ) (r : LogRow) (st : RunState) : RunState :=
  { st with folds := st.folds ++ [fnum],
            best_losses := st.best_losses ++ [(r.val_loss : WithTop ℚ)],
            best_scores := st.best_scores ++ [r.val_score],
            best_ac_scores := st.best_ac_scores ++ [r.val_ac_score] }

/-- Trained branch appends (train.py lines 564-575): both snapshots, all
eleven lists. -/
def pushTrained (fnum : ℕ) (fr : FoldRun) (st : RunState) : RunState :=
  ⟨st.folds ++ [fnum],
   st.best_losses ++ [fr.best.loss], st.best_scores ++ [fr.best.score],
   st.best_ac_scores ++ [fr.best.ac_score], st.best_f1_scores ++ [fr.best.f1_score],
   st.best_epochs ++ [fr.best.epoch],
   st.best_losses_1 ++ [fr.best1.loss], st.best_scores_1 ++ [fr.best1.score],
   st.best_ac_scores_1 ++ [fr.best1.ac_score], st.best_f1_scores_1 ++ [fr.best1.f1_score],
   st.best_epochs_1 ++ [fr.best1.epoch]⟩

/-- First log row attaining the minimum val_loss, as selected by
log.loc with argmin over the val_loss column (train.py line 385); none on
an empty log, where numpy argmin raises. -/
def bestRow : List LogRow → Option LogRow
  | [] => none
  | r :: rs =>
    match bestRow rs with
    | none => some r
    | some b => if b.val_loss < r.val_loss then some b else some r

/-- Input consumed by one fold iteration: either the completed-fold artifact
model_<fold>.pth exists on disk and the resume branch reads the persisted
log content, or the fold is trained against the given per-epoch metric
outcomes delivered by the external collaborators. -/
inductive FoldInput where
  | resume (rows : List LogRow)
  | trainFold (ms : List EpochMetrics)
  deriving DecidableEq

/-- Accumulator threaded through the fold loop: orchestrator lists, the
fold numbers whose loop body was entered, the file writes issued, counters
of constructed models, optimizers and data loaders, and a crash flag for an
uncaught exception. -/
structure RunAcc where
  st : RunState
  entered : List ℕ
  writes : List FName
  modelsBuilt : ℕ
  optimizersBuilt : ℕ
  loadersBuilt : ℕ
  crashed : Bool
  deriving DecidableEq

def initAcc : RunAcc := ⟨initState, [], [], 0, 0, 0, false⟩

/-- Fold loop of main() (train.py lines 380-641). The resume branch appends
the best log row values and continues, never reaching the break; the
trained branch builds two loaders, a model and an optimizer, runs the epoch
loop, appends both snapshots, writes both summary tables (a pandas
length-mismatch ValueError is modelled by crashed := true) and finally
breaks when cv is false. -/
def runLoop (cv : Bool) (fnum : ℕ) (acc : RunAcc) : List FoldInput → RunAcc
  | [] => acc
  | FoldInput.resume rows :: rest =>
    let acc1 := { acc with entered := acc.entered ++ [fnum] }
    match bestRow rows with
    | none => { acc1 with crashed := true }
    | some r => runLoop cv (fnum + 1) { acc1 with st := pushResume fnum r acc1.st } rest
  | FoldInput.trainFold ms :: rest =>
    let fr := runFold fnum ms
    let st1 := pushTrained fnum fr acc.st
    let acc1 := { acc with
                  st := st1
                  entered := acc.entered ++ [fnum]
                  writes := acc.writes ++ fr.writes
                  modelsBuilt := acc.modelsBuilt + 1
                  optimizersBuilt := acc.optimizersBuilt + 1
                  loadersBuilt := acc.loadersBuilt + 2 }
    match mkResults st1 with
    | none => { acc1 with crashed := true }
    | some _ =>
      match mkResults1 st1 with
      | none => { acc1 with writes := acc1.writes ++ [FName.results], crashed := true }
      | some _ =>
        let acc2 := { acc1 with writes := acc1.writes ++ [FName.results, FName.results1] }
        if cv then runLoop cv (fnum + 1) acc2 rest else acc2

/-- Run of the orchestrator over trained folds only, cv enabled. -/
def trainedRun (inputs : List (List EpochMetrics)) : RunAcc :=
  runLoop true 1 initAcc (inputs.map FoldInput.trainFold)

/-- Numpy fancy indexing xs[idx]. -/
def selectIdx {α : Type} (xs : List α) (idx : List ℕ) : List α :=
  idx.filterMap (fun i => xs.get? i)

/-- Mixed two-dataset branch (train.py lines 332-338): per stratified split
of the primary aptos2019 samples, the train side is the primary train
portion concatenated with the full diabetic_retinopathy set and the val
side is only the primary held-out portion; same shape for labels. -/
def composeMixed {α β : Type} (aP : List α) (aL : List β) (dP : List α) (dL : List β)
    (splits : List (List ℕ × List ℕ)) :
    List (List α × List α) × List (List β × List β) :=
  (splits.map (fun s => (selectIdx aP s.1 ++ dP, selectIdx aP s.2)),
   splits.map (fun s => (selectIdx aL s.1 ++ dL, selectIdx aL s.2)))

/-- Pseudo-label injection (train.py lines 353-355): per fold, append the
pseudo-labeled test samples to the train component and keep the val
component; applied to the path folds and the label folds alike. -/
def appendToTrain {γ : Type} (fs : List (List γ × List γ)) (extra : List γ) :
    List (List γ × List γ) :=
  fs.map (fun p => (p.1 ++ extra, p.2))

/-- Character list pat starts character list s. -/
def isPre : List Char → List Char → Bool
  | [], _ => true
  | _ :: _, [] => false
  | p :: ps, c :: cs => p == c && isPre ps cs

/-- Character list pat occurs inside character list s. -/
def hasSub (pat : List Char) : List Char → Bool
  | [] => isPre pat []
  | c :: cs => isPre pat (c :: cs) || hasSub pat cs

/-- Python substring containment, pat in s. -/
def containsStr (s pat : String) : Bool :=
  hasSub pat.data s.data

inductive DataBranch where
  | aptosOnly
  | drOnly
  | mixed
  deriving DecidableEq

/-- Dataset-selection dispatch (train.py lines 316-340): the trailing
else branch that would raise NotImplementedError is commented out at lines
339-340, so an unsupported selection leaves img_paths unbound (none). -/
def selectBranch (s : String) : Option DataBranch :=
  if s = "aptos2019" then some DataBranch.aptosOnly
  else if s = "diabetic_retinopathy" then some DataBranch.drOnly
  else if containsStr s "diabetic_retinopathy" && containsStr s "aptos2019" then
    some DataBranch.mixed
  else none

/-- Error taxonomy: configError models NotImplementedError raised by the
configuration dispatches, which the spec calls ConfigurationError;
nameError models the UnboundLocalError raised at the fold loop zip
(train.py line 380) when img_paths was never assigned. -/
inductive RunError where
  | configError
  | nameError
  deriving DecidableEq

/-- Loss dispatch (train.py lines 232-244): the unsupported case raises
NotImplementedError before any fold starts. -/
def checkLoss (loss : String) : Except RunError Unit :=
  if loss = "CrossEntropyLoss" ∨ loss = "FocalLoss" ∨ loss = "MSELoss" ∨
      loss = "multitask" then Except.ok ()
  else Except.error RunError.configError

/-- Outcome of the dataset-selection phase as the program actually behaves:
a supported selection yields its branch; an unsupported one is only
detected when the fold loop zip evaluates the unbound img_paths, raising
UnboundLocalError rather than the NotImplementedError the commented-out
guard would have raised. -/
def datasetPhase (s : String) : Except RunError DataBranch :=
  match selectBranch s with
  | some b => Except.ok b
  | none => Except.error RunError.nameError

/-- Concrete log row used by witnesses: val_loss 2, val_score 3,
val_ac_score 4. -/
def rowB : LogRow := ⟨0, 1, 0, 0, 0, 2, 3, 4, 0⟩

/-- Concrete log row with the strictly smaller val_loss 1. -/
def rowA : LogRow := ⟨1, 0, 0, 0, 0, 1, 5, 6, 0⟩

/-- Concrete epoch outcome with all metrics zero. -/
def emZero : EpochMetrics := ⟨0, 0, 0, 0, 0, 0, 0, 0⟩

/-- Concrete epoch outcome: val_score 3, val_ac_score 1. -/
def emA : EpochMetrics := ⟨0, 0, 0, 0, 1, 3, 1, 0⟩

/-- Concrete epoch outcome: val_score 2, val_ac_score 5. -/
def emB : EpochMetrics := ⟨0, 0, 0, 0, 1, 2, 5, 0⟩

/-- Concrete epoch outcome: val_score 1, val_ac_score 2. -/
def emC : EpochMetrics := ⟨0, 0, 0, 0, 1, 1, 2, 0⟩

/-- Concrete epoch outcome with a negative val_score. -/
def emNeg : EpochMetrics := ⟨0, 0, 0, 0, 1, -1, 1, 0⟩

/-- All ten metric lists agree in length with the fold list. -/
def lensOk (st : RunState) : Prop :=
  st.best_losses.length = st.folds.length ∧
  st.best_scores.length = st.folds.length ∧
  st.best_ac_scores.length = st.folds.length ∧
  st.best_f1_scores.length = st.folds.length ∧
  st.best_epochs.length = st.folds.length ∧
  st.best_losses_1.length = st.folds.length ∧
  st.best_scores_1.length = st.folds.length ∧
  st.best_ac_scores_1.length = st.folds.length ∧
  st.best_f1_scores_1.length = st.folds.length ∧
  st.best_epochs_1.length = st.folds.length

/-- Accumulator after one successfully trained fold: epoch-loop writes are
followed by the two summary table writes, the snapshots are appended, and
one model, one optimizer and two loaders were constructed. -/
def accAfterTrain (fnum : ℕ) (acc : RunAcc) (ms : List EpochMetrics) : RunAcc :=
  { acc with
    st := pushTrained fnum (runFold fnum ms) acc.st
    entered := acc.entered ++ [fnum]
    writes := acc.writes ++ (runFold fnum ms).writes ++ [FName.results, FName.results1]
    modelsBuilt := acc.modelsBuilt + 1
    optimizersBuilt := acc.optimizersBuilt + 1
    loadersBuilt := acc.loadersBuilt + 2 }

/-- C3. The dataset-selection string "messidor" names an unsupported
combination: train.py lines 316-338 bind img_paths in no branch, the guard
at lines 339-340 is commented out, and the run dies with UnboundLocalError
at the fold loop zip (line 380) instead of the ConfigurationError
(NotImplementedError) the spec requires before any fold starts. The default
two-dataset string still selects the mixed branch. -/
theorem dataset_selection_unsupported_is_name_error :
    selectBranch "messidor" = none ∧
    datasetPhase "messidor" = Except.error RunError.nameError ∧
    datasetPhase "messidor" ≠ Except.error RunError.configError ∧
    selectBranch "aptos2019, diabetic_retinopathy" = some DataBranch.mixed := by
  refine ⟨by decide, ?_, ?_, by decide⟩
  · show datasetPhase "messidor" = Except.error RunError.nameError
    rw [datasetPhase, show selectBranch "messidor" = none from by decide]
  · rw [datasetPhase, show selectBranch "messidor" = none from by decide]
    intro h
    exact RunError.noConfusion (Except.error.inj h)

/-- C7. Pseudo-label injection appends the pseudo-labeled test samples to
the train component of every fold and leaves the validation component of
every fold exactly unchanged (train.py lines 353-355); the number of folds
is also unchanged. -/
theorem pseudo_labels_train_only {γ : Type} (fs : List (List γ × List γ))
    (extra : List γ) (k : ℕ) :
    (appendToTrain fs extra).get? k = (fs.get? k).map (fun p => (p.1 ++ extra, p.2)) ∧
    ((appendToTrain fs extra).get? k).map (fun p => p.2) = (fs.get? k).map (fun p => p.2) ∧
    (appendToTrain fs extra).length = fs.length := by
  refine ⟨List.get?_map _ _ _, ?_, List.length_map _ _⟩
  rw [appendToTrain, List.get?_map]
  cases fs.get? k <;> rfl

/-- Fancy indexing with in-range indices returns one element per index. -/
theorem selectIdx_length {α : Type} (xs : List α) (idx : List ℕ)
    (h : ∀ i ∈ idx, i < xs.length) : (selectIdx xs idx).length = idx.length := by
  induction idx with
  | nil => rfl
  | cons i l ih =>
    have hi : xs.get? i = some (xs.get ⟨i, h i (by simp)⟩) := List.get?_eq_get _
    simp only [selectIdx, List.filterMap_cons, hi, List.length_cons]
    rw [show List.filterMap (fun j => xs.get? j) l = selectIdx xs l from rfl,
      ih (fun j hj => h j (by simp [hj]))]

/-- Every fancy-indexed element is an element of the source list. -/
theorem selectIdx_mem {α : Type} (xs : List α) (idx : List ℕ) :
    ∀ x ∈ selectIdx xs idx, x ∈ xs := by
  intro x hx
  obtain ⟨i, _, hget⟩ := List.mem_filterMap.1 hx
  exact List.get?_mem hget

/-- C5. Two-dataset mixing (train.py lines 332-338): for every fold, the
train split is the stratified train portion of the primary dataset
concatenated with the entire secondary dataset and the validation split is
only the primary held-out portion; the train size adds the full secondary
size, the validation size is the held-out size, every validation sample
comes from the primary dataset, and no validation sample comes from the
secondary dataset when the two datasets are disjoint. -/
theorem mixed_fold_composition {α β : Type} (aP : List α) (aL : List β)
    (dP : List α) (dL : List β) (splits : List (List ℕ × List ℕ)) (k : ℕ)
    (s : List ℕ × List ℕ) (hs : splits.get? k = some s)
    (hv1 : ∀ i ∈ s.1, i < aP.length) (hv2 : ∀ i ∈ s.2, i < aP.length) :
    (composeMixed aP aL dP dL splits).1.get? k
      = some (selectIdx aP s.1 ++ dP, selectIdx aP s.2) ∧
    (composeMixed aP aL dP dL splits).2.get? k
      = some (selectIdx aL s.1 ++ dL, selectIdx aL s.2) ∧
    (selectIdx aP s.1 ++ dP).length = s.1.length + dP.length ∧
    (selectIdx aP s.2).length = s.2.length ∧
    (∀ x ∈ selectIdx aP s.2, x ∈ aP) ∧
    ((∀ x ∈ aP, x ∉ dP) → ∀ x ∈ selectIdx aP s.2, x ∉ dP) := by
  refine ⟨?_, ?_, ?_, selectIdx_length aP s.2 hv2, selectIdx_mem aP s.2, ?_⟩
  · have h1 : (composeMixed aP aL dP dL splits).1
        = splits.map (fun t => (selectIdx aP t.1 ++ dP, selectIdx aP t.2)) := rfl
    rw [h1, List.get?_map, hs]
    rfl
  · have h1 : (composeMixed aP aL dP dL splits).2
        = splits.map (fun t => (selectIdx aL t.1 ++ dL, selectIdx aL t.2)) := rfl
    rw [h1, List.get?_map, hs]
    rfl
  · rw [List.length_append, selectIdx_length aP s.1 hv1]
  · intro hdisj x hx
    exact hdisj x (selectIdx_mem aP s.2 x hx)

/-- Helper witness split for the mixing theorem. -/
theorem mixed_fold_composition_witness :
    (([([0, 1, 2], [3])] : List (List ℕ × List ℕ)).get? 0 = some ([0, 1, 2], [3])) ∧
    (composeMixed [10, 11, 12, 13] [0, 1, 2, 3] [100, 101] [4, 4]
        [([0, 1, 2], [3])]).1.get? 0 = some ([10, 11, 12, 100, 101], [13]) ∧
    (composeMixed [10, 11, 12, 13] [0, 1, 2, 3] [100, 101] [4, 4]
        [([0, 1, 2], [3])]).2.get? 0 = some ([0, 1, 2, 4, 4], [3]) := by
  have h := mixed_fold_composition [10, 11, 12, 13] [0, 1, 2, 3] [100, 101] [4, 4]
    [([0, 1, 2], [3])] 0 ([0, 1, 2], [3]) (by decide) (by decide) (by decide)
  exact ⟨by decide, by rw [h.1]; decide, by rw [h.2.1]; decide⟩

/-- The log builder emits one row per epoch outcome. -/
theorem logRowsFrom_length (l : List EpochMetrics) (e0 : ℕ) :
    (logRowsFrom e0 l).length = l.length := by
  induction l generalizing e0 with
  | nil => rfl
  | cons m rest ih => simp [logRowsFrom, ih]

/-- Row i of the log built from offset e0 is the row of epoch e0 + i. -/
theorem logRowsFrom_get? (l : List EpochMetrics) (e0 i : ℕ) :
    (logRowsFrom e0 l).get? i = (l.get? i).map (mkRow (e0 + i)) := by
  induction l generalizing e0 i with
  | nil => simp [logRowsFrom]
  | cons m rest ih =>
    cases i with
    | zero => simp [logRowsFrom]
    | succ j =>
      simp only [logRowsFrom, List.get?_cons_succ]
      rw [ih (e0 + 1) j]
      have h2 : e0 + 1 + j = e0 + (j + 1) := by omega
      rw [h2]

/-- Truncating a built log equals building from truncated outcomes. -/
theorem logRowsFrom_take (l : List EpochMetrics) (e0 n : ℕ) :
    (logRowsFrom e0 l).take n = logRowsFrom e0 (l.take n) := by
  induction l generalizing e0 n with
  | nil => simp [logRowsFrom]
  | cons m rest ih =>
    cases n with
    | zero => rfl
    | succ j => simp [logRowsFrom, ih]

/-- C8. After every completed epoch e of a trained fold the rewritten log
contains exactly e + 1 rows, row i holds the metrics of epoch i under the
nine LogRow columns, rows are strictly ordered by their epoch index, and
the log after epoch e is an unaltered initial segment of the log after any
later epoch (train.py lines 524-534). -/
theorem log_rows_per_epoch (ms : List EpochMetrics) (e : ℕ) (h : e < ms.length) :
    (logAfter ms e).length = e + 1 ∧
    (∀ i, i ≤ e → (logAfter ms e).get? i = (ms.get? i).map (mkRow i)) ∧
    (∀ i r, (logAfter ms e).get? i = some r → r.epoch = i) ∧
    (∀ e2, e ≤ e2 → e2 < ms.length → logAfter ms e = (logAfter ms e2).take (e + 1)) := by
  refine ⟨?_, ?_, ?_, ?_⟩
  · rw [logAfter, logRowsFrom_length, List.length_take]
    omega
  · intro i hi
    rw [logAfter, logRowsFrom_get?, List.get?_take (by omega : i < e + 1)]
    simp
  · intro i r hr
    rw [logAfter, logRowsFrom_get?] at hr
    cases hm : (ms.take (e + 1)).get? i with
    | none => rw [hm] at hr; cases hr
    | some m =>
      rw [hm] at hr
      have h3 : r = mkRow (0 + i) m := (Option.some.inj hr).symm
      rw [h3]
      show 0 + i = i
      omega
  · intro e2 h1 h2
    rw [logAfter, logAfter, logRowsFrom_take, List.take_take,
      show (e + 1) ⊓ (e2 + 1) = e + 1 from by omega]

/-- Concrete instance of the per-epoch log properties for a two-epoch fold
after its first epoch. -/
theorem log_rows_per_epoch_witness :
    (0 < ([emA, emB] : List EpochMetrics).length) ∧
    (logAfter [emA, emB] 0).length = 0 + 1 ∧
    (∀ i, i ≤ 0 → (logAfter [emA, emB] 0).get? i
      = (([emA, emB] : List EpochMetrics).get? i).map (mkRow i)) ∧
    (∀ i r, (logAfter [emA, emB] 0).get? i = some r → r.epoch = i) ∧
    (∀ e2, 0 ≤ e2 → e2 < ([emA, emB] : List EpochMetrics).length →
      logAfter [emA, emB] 0 = (logAfter [emA, emB] e2).take (0 + 1)) :=
  ⟨by decide, log_rows_per_epoch [emA, emB] 0 (by decide)⟩

/-- C6. The two best trackers are independent and fire only on strict
improvement of their own criterion (train.py lines 536-552): in a 3-epoch
fold whose first epoch has the strictly highest validation score and whose
second epoch has the strictly highest validation accuracy, the primary
snapshot records the first epoch (index 0) and its metrics, the adjacency
pickle is dumped exactly at that epoch, and the secondary snapshot records
the second epoch (index 1) and its metrics. -/
theorem best_trackers_independent (f : ℕ) (m0 m1 m2 : EpochMetrics)
    (hs0 : 0 < m0.val_score) (hs1 : m1.val_score < m0.val_score)
    (hs2 : m2.val_score < m0.val_score) (ha0 : 0 < m0.val_ac_score)
    (ha1 : m0.val_ac_score < m1.val_ac_score)
    (ha2 : m2.val_ac_score < m1.val_ac_score) :
    (runFold f [m0, m1, m2]).best = mkSnap 0 m0 ∧
    (runFold f [m0, m1, m2]).best1 = mkSnap 1 m1 ∧
    (runFold f [m0, m1, m2]).adjEpochs = [0] ∧
    (runFold f [m0, m1, m2]).writes
      = [FName.log f, FName.adj f, FName.log f, FName.log f] := by
  simp [runFold, runFoldAux, foldEpochStep, stepBest1, initBest, mkSnap,
    hs0, ha0, ha1, hs1.not_lt, hs2.not_lt, ha2.not_lt]

/-- Concrete three-epoch run: epoch 0 has the best score, epoch 1 the best
accuracy, and the two snapshots disagree exactly as rule A and rule B say. -/
theorem best_trackers_independent_witness :
    (0 < emA.val_score) ∧
    (runFold 1 [emA, emB, emC]).best = mkSnap 0 emA ∧
    (runFold 1 [emA, emB, emC]).best1 = mkSnap 1 emB ∧
    (runFold 1 [emA, emB, emC]).adjEpochs = [0] ∧
    (runFold 1 [emA, emB, emC]).writes
      = [FName.log 1, FName.adj 1, FName.log 1, FName.log 1] :=
  ⟨by decide, best_trackers_independent 1 emA emB emC (by decide) (by decide)
    (by decide) (by decide) (by decide) (by decide)⟩

/-- Epoch loop invariant: while every validation score is non-positive the
primary snapshot stays at its initial value, no adjacency epoch is recorded
and the only new file writes are log rewrites. -/
theorem runFoldAux_nonpos (f : ℕ) (ms : List EpochMetrics) :
    ∀ (e : ℕ) (fr : FoldRun), fr.best = initBest → (∀ m ∈ ms, m.val_score ≤ 0) →
    (runFoldAux f e fr ms).best = initBest ∧
    (runFoldAux f e fr ms).adjEpochs = fr.adjEpochs ∧
    (∀ w ∈ (runFoldAux f e fr ms).writes, w ∈ fr.writes ∨ w = FName.log f) := by
  induction ms with
  | nil => exact fun e fr hb h => ⟨hb, rfl, fun w hw => Or.inl hw⟩
  | cons m rest ih =>
    intro e fr hb h
    have hcond : ¬ (fr.best.score < m.val_score) := by
      rw [hb]
      exact not_lt.mpr (h m (by simp))
    have hstep : foldEpochStep f fr e m
        = { best := fr.best, best1 := stepBest1 fr.best1 e m,
            writes := fr.writes ++ [FName.log f], adjEpochs := fr.adjEpochs } := by
      rw [foldEpochStep, if_neg hcond]
    have hrec : runFoldAux f e fr (m :: rest)
        = runFoldAux f (e + 1) (foldEpochStep f fr e m) rest := rfl
    rw [hrec, hstep]
    obtain ⟨ihb, iha, ihw⟩ := ih (e + 1)
      { best := fr.best, best1 := stepBest1 fr.best1 e m,
        writes := fr.writes ++ [FName.log f], adjEpochs := fr.adjEpochs }
      hb (fun q hq => h q (by simp [hq]))
    refine ⟨ihb, iha, fun w hw => ?_⟩
    rcases ihw w hw with h1 | h1
    · rcases List.mem_append.1 h1 with h2 | h2
      · exact Or.inl h2
      · exact Or.inr (List.mem_singleton.1 h2)
    · exact Or.inr h1

/-- C10. The primary tracker starts from best_score = 0 and best_loss = inf
(train.py lines 492-496) and fires only on a strictly positive improvement,
so a trained fold whose every epoch has validation score at most 0 keeps
the initial primary snapshot: best_loss stays inf, best_epoch stays 0, no
adjacency pickle is ever dumped for the fold. -/
theorem nonpositive_scores_keep_init (f : ℕ) (ms : List EpochMetrics)
    (h : ∀ m ∈ ms, m.val_score ≤ 0) :
    (runFold f ms).best = initBest ∧
    (runFold f ms).best.loss = ⊤ ∧
    (runFold f ms).best.epoch = 0 ∧
    (runFold f ms).adjEpochs = [] ∧
    (∀ g, FName.adj g ∉ (runFold f ms).writes) := by
  obtain ⟨hb, ha, hw⟩ := runFoldAux_nonpos f ms 0 ⟨initBest, initBest, [], []⟩ rfl h
  have hb2 : (runFold f ms).best = initBest := hb
  refine ⟨hb2, by rw [hb2]; rfl, by rw [hb2]; rfl, ha, ?_⟩
  intro g hg
  rcases hw _ hg with h1 | h1
  · exact absurd h1 (List.not_mem_nil _)
  · exact FName.noConfusion h1

/-- Concrete fold with validation scores 0 and -1: the primary snapshot is
never replaced and no adjacency file is written. -/
theorem nonpositive_scores_keep_init_witness :
    (∀ m ∈ ([emZero, emNeg] : List EpochMetrics), m.val_score ≤ 0) ∧
    ((runFold 3 [emZero, emNeg]).best = initBest ∧
     (runFold 3 [emZero, emNeg]).best.loss = ⊤ ∧
     (runFold 3 [emZero, emNeg]).best.epoch = 0 ∧
     (runFold 3 [emZero, emNeg]).adjEpochs = [] ∧
     (∀ g, FName.adj g ∉ (runFold 3 [emZero, emNeg]).writes)) :=
  ⟨by decide, nonpositive_scores_keep_init 3 [emZero, emNeg] (by decide)⟩

/-- A nonempty persisted log always yields a best row. -/
theorem bestRow_isSome (rows : List LogRow) (h : rows ≠ []) :
    ∃ r, bestRow rows = some r := by
  cases rows with
  | nil => exact absurd rfl h
  | cons a l =>
    cases h2 : bestRow l with
    | none => exact ⟨a, by rw [bestRow, h2]⟩
    | some b =>
      by_cases hlt : b.val_loss < a.val_loss
      · exact ⟨b, by rw [bestRow, h2]; simp [hlt]⟩
      · exact ⟨a, by rw [bestRow, h2]; simp [hlt]⟩

/-- The selected best row belongs to the log and minimizes val_loss. -/
theorem bestRow_spec (rows : List LogRow) :
    ∀ r, bestRow rows = some r → r ∈ rows ∧ ∀ q ∈ rows, r.val_loss ≤ q.val_loss := by
  induction rows with
  | nil => intro r hr; cases hr
  | cons a l ih =>
    intro r hr
    rw [bestRow] at hr
    cases h2 : bestRow l with
    | none =>
      rw [h2] at hr
      have hl : l = [] := by
        cases l with
        | nil => rfl
        | cons b m =>
          obtain ⟨x, hx⟩ := bestRow_isSome (b :: m) (by simp)
          rw [hx] at h2
          cases h2
      have hra : r = a := (Option.some.inj hr).symm
      subst hra
      subst hl
      exact ⟨List.mem_singleton.2 rfl, by intro q hq; rw [List.mem_singleton.1 hq]⟩
    | some b =>
      rw [h2] at hr
      dsimp only at hr
      obtain ⟨hbm, hbmin⟩ := ih b h2
      by_cases hlt : b.val_loss < a.val_loss
      · rw [if_pos hlt] at hr
        have hrb : r = b := (Option.some.inj hr).symm
        subst hrb
        refine ⟨List.mem_cons_of_mem a hbm, fun q hq => ?_⟩
        rcases List.mem_cons.1 hq with h3 | h3
        · rw [h3]; exact le_of_lt hlt
        · exact hbmin q h3
      · rw [if_neg hlt] at hr
        have hra : r = a := (Option.some.inj hr).symm
        subst hra
        refine ⟨List.mem_cons_self _ _, fun q hq => ?_⟩
        rcases List.mem_cons.1 hq with h3 | h3
        · rw [h3]
        · exact le_trans (not_lt.1 hlt) (hbmin q h3)

/-- C1. Resume skip (train.py lines 383-390): when the completed-fold
artifact exists, the fold controller reads the persisted log, selects a row
of minimum val_loss, appends exactly the fold number and the values
val_loss, val_score, val_ac_score to the orchestrator lists, and continues
with the next fold without writing any file and without constructing a
model, an optimizer or a data loader. -/
theorem resume_skip_uses_min_val_loss_row (cv : Bool) (fnum : ℕ) (acc : RunAcc)
    (rows : List LogRow) (rest : List FoldInput) (h : rows ≠ []) :
    ∃ r, r ∈ rows ∧ (∀ q ∈ rows, r.val_loss ≤ q.val_loss) ∧
      runLoop cv fnum acc (FoldInput.resume rows :: rest) =
        runLoop cv (fnum + 1)
          { acc with
            entered := acc.entered ++ [fnum]
            st := pushResume fnum r acc.st }
          rest ∧
      (runLoop cv fnum acc [FoldInput.resume rows]).writes = acc.writes ∧
      (runLoop cv fnum acc [FoldInput.resume rows]).modelsBuilt = acc.modelsBuilt ∧
      (runLoop cv fnum acc [FoldInput.resume rows]).optimizersBuilt
        = acc.optimizersBuilt ∧
      (runLoop cv fnum acc [FoldInput.resume rows]).loadersBuilt = acc.loadersBuilt ∧
      (runLoop cv fnum acc [FoldInput.resume rows]).st.best_losses
        = acc.st.best_losses ++ [(r.val_loss : WithTop ℚ)] ∧
      (runLoop cv fnum acc [FoldInput.resume rows]).st.best_scores
        = acc.st.best_scores ++ [r.val_score] ∧
      (runLoop cv fnum acc [FoldInput.resume rows]).st.best_ac_scores
        = acc.st.best_ac_scores ++ [r.val_ac_score] ∧
      (runLoop cv fnum acc [FoldInput.resume rows]).st.best_f1_scores
        = acc.st.best_f1_scores ∧
      (runLoop cv fnum acc [FoldInput.resume rows]).st.best_scores_1
        = acc.st.best_scores_1 := by
  obtain ⟨r, hr⟩ := bestRow_isSome rows h
  obtain ⟨hmem, hmin⟩ := bestRow_spec rows r hr
  refine ⟨r, hmem, hmin, ?_, ?_, ?_, ?_, ?_, ?_, ?_, ?_, ?_, ?_⟩
  all_goals simp [runLoop, hr, pushResume]

/-- Concrete resume skip over a two-row log: the row with val_loss 1 is
selected and emitted, and nothing is built or written. -/
theorem resume_skip_uses_min_val_loss_row_witness :
    (([rowB, rowA] : List LogRow) ≠ []) ∧
    (∃ r, r ∈ ([rowB, rowA] : List LogRow) ∧
      (∀ q ∈ ([rowB, rowA] : List LogRow), r.val_loss ≤ q.val_loss) ∧
      runLoop true 7 initAcc (FoldInput.resume [rowB, rowA] :: []) =
        runLoop true (7 + 1)
          { initAcc with
            entered := initAcc.entered ++ [7]
            st := pushResume 7 r initAcc.st } [] ∧
      (runLoop true 7 initAcc [FoldInput.resume [rowB, rowA]]).writes
        = initAcc.writes ∧
      (runLoop true 7 initAcc [FoldInput.resume [rowB, rowA]]).modelsBuilt
        = initAcc.modelsBuilt ∧
      (runLoop true 7 initAcc [FoldInput.resume [rowB, rowA]]).optimizersBuilt
        = initAcc.optimizersBuilt ∧
      (runLoop true 7 initAcc [FoldInput.resume [rowB, rowA]]).loadersBuilt
        = initAcc.loadersBuilt ∧
      (runLoop true 7 initAcc [FoldInput.resume [rowB, rowA]]).st.best_losses
        = initAcc.st.best_losses ++ [(r.val_loss : WithTop ℚ)] ∧
      (runLoop true 7 initAcc [FoldInput.resume [rowB, rowA]]).st.best_scores
        = initAcc.st.best_scores ++ [r.val_score] ∧
      (runLoop true 7 initAcc [FoldInput.resume [rowB, rowA]]).st.best_ac_scores
        = initAcc.st.best_ac_scores ++ [r.val_ac_score] ∧
      (runLoop true 7 initAcc [FoldInput.resume [rowB, rowA]]).st.best_f1_scores
        = initAcc.st.best_f1_scores ∧
      (runLoop true 7 initAcc [FoldInput.resume [rowB, rowA]]).st.best_scores_1
        = initAcc.st.best_scores_1) :=
  ⟨by simp, resume_skip_uses_min_val_loss_row true 7 initAcc [rowB, rowA] []
    (by simp)⟩

/-- C2 counterexample. With cv = false and the first fold resume-skipped,
the continue statement bypasses the break at train.py lines 640-641, so a
second fold is entered: the claim that no fold with index greater than 1 is
ever entered fails on this run. -/
theorem single_fold_mode_cex :
    (runLoop false 1 initAcc
      [FoldInput.resume [rowB], FoldInput.trainFold [emA]]).entered = [1, 2] := by
  decide

/-- Folds are consumed one per loop iteration: across nonempty resume folds
with cv = false, every fold up to and including the first trained fold is
entered and then the loop stops (break, or crash inside the table write). -/
theorem runLoop_stops_at_first_trained (pre : List FoldInput)
    (ms : List EpochMetrics) (rest : List FoldInput) :
    ∀ (fnum : ℕ) (acc : RunAcc),
      (∀ x ∈ pre, ∃ rows, x = FoldInput.resume rows ∧ rows ≠ []) →
      (runLoop false fnum acc (pre ++ FoldInput.trainFold ms :: rest)).entered
        = acc.entered ++ List.range' fnum (pre.length + 1) := by
  induction pre with
  | nil =>
    intro fnum acc hp
    rw [List.nil_append]
    simp only [runLoop]
    split
    · simp
    · split
      · simp
      · simp
  | cons x pre ih =>
    intro fnum acc hp
    obtain ⟨rows, hx, hne⟩ := hp x (by simp)
    subst hx
    obtain ⟨r, hr⟩ := bestRow_isSome rows hne
    rw [List.cons_append]
    simp only [runLoop]
    rw [hr]
    rw [ih (fnum + 1) _ (fun y hy => hp y (by simp [hy]))]
    simp [List.range'_succ]

/-- C2 amended. With cv = false the run stops after the first fold that is
actually trained: if the first k folds are resume-skipped (each with a
nonempty persisted log) and fold k + 1 is trained, then exactly the folds
1 .. k + 1 are entered. A resume-skipped fold does not trigger the break at
train.py lines 640-641, so resume-skipped folds before the first trained
fold do not stop the run, while nothing after the first trained fold is
ever entered. -/
theorem single_fold_mode_stops_after_first_trained (inputs : List FoldInput)
    (k : ℕ) (ms : List EpochMetrics)
    (hpre : ∀ x ∈ inputs.take k, ∃ rows, x = FoldInput.resume rows ∧ rows ≠ [])
    (hk : inputs.get? k = some (FoldInput.trainFold ms)) :
    (runLoop false 1 initAcc inputs).entered = List.range' 1 (k + 1) := by
  obtain ⟨hlt, hget⟩ := List.get?_eq_some.1 hk
  have hdrop : inputs.drop k = FoldInput.trainFold ms :: inputs.drop (k + 1) := by
    rw [List.drop_eq_get_cons hlt, hget]
  have hsplit : inputs = inputs.take k ++ FoldInput.trainFold ms :: inputs.drop (k + 1) := by
    conv_lhs => rw [← List.take_append_drop k inputs]
    rw [hdrop]
  rw [hsplit, runLoop_stops_at_first_trained (inputs.take k) ms (inputs.drop (k + 1))
    1 initAcc hpre]
  have hlen : (inputs.take k).length = k := by
    rw [List.length_take]
    omega
  rw [hlen]
  rfl

/-- Concrete amended run: one nonempty resume fold followed by a trained
fold under cv = false enters exactly folds 1 and 2. -/
theorem single_fold_mode_stops_after_first_trained_witness :
    (runLoop false 1 initAcc
      [FoldInput.resume [rowA], FoldInput.trainFold [emA]]).entered
      = List.range' 1 (1 + 1) :=
  single_fold_mode_stops_after_first_trained
    [FoldInput.resume [rowA], FoldInput.trainFold [emA]] 1 [emA]
    (fun x hx => ⟨[rowA], by simpa using hx, by simp⟩) (by decide)

/-- Every file written by the epoch loop of a trained fold is either the
fold log or the fold adjacency pickle. -/
theorem runFoldAux_writes_shape (f : ℕ) (ms : List EpochMetrics) :
    ∀ (e : ℕ) (fr : FoldRun), ∀ w ∈ (runFoldAux f e fr ms).writes,
      w ∈ fr.writes ∨ w = FName.log f ∨ w = FName.adj f := by
  induction ms with
  | nil => exact fun e fr w hw => Or.inl hw
  | cons m rest ih =>
    intro e fr w hw
    have hrec : runFoldAux f e fr (m :: rest)
        = runFoldAux f (e + 1) (foldEpochStep f fr e m) rest := rfl
    rw [hrec] at hw
    rcases ih (e + 1) (foldEpochStep f fr e m) w hw with h1 | h1
    · rw [foldEpochStep] at h1
      by_cases hc : m.val_score > fr.best.score
      · rw [if_pos hc] at h1
        rcases List.mem_append.1 h1 with h2 | h2
        · exact Or.inl h2
        · rcases List.mem_cons.1 h2 with h3 | h3
          · exact Or.inr (Or.inl h3)
          · exact Or.inr (Or.inr (List.mem_singleton.1 h3))
      · rw [if_neg hc] at h1
        rcases List.mem_append.1 h1 with h2 | h2
        · exact Or.inl h2
        · exact Or.inr (Or.inl (List.mem_singleton.1 h2))
    · exact Or.inr h1


/-- Every file written across the whole fold loop is a fold log, a fold
adjacency pickle or one of the two summary tables. -/
theorem runLoop_writes_shape (inputs : List FoldInput) :
    ∀ (cv : Bool) (fnum : ℕ) (acc : RunAcc),
      ∀ w ∈ (runLoop cv fnum acc inputs).writes,
        w ∈ acc.writes ∨ (∃ f, w = FName.log f) ∨ (∃ f, w = FName.adj f) ∨
          w = FName.results ∨ w = FName.results1 := by
  induction inputs with
  | nil => exact fun cv fnum acc w hw => Or.inl hw
  | cons x rest ih =>
    intro cv fnum acc w hw
    have hfold : ∀ (g : ℕ) (v : FName), v ∈ (runFold g (match x with
        | FoldInput.trainFold ms => ms | FoldInput.resume _ => [])).writes →
        (∃ f, v = FName.log f) ∨ (∃ f, v = FName.adj f) := by
      intro g v hv
      rcases runFoldAux_writes_shape g _ 0 ⟨initBest, initBest, [], []⟩ v hv
        with h1 | h1 | h1
      · exact absurd h1 (List.not_mem_nil v)
      · exact Or.inl ⟨g, h1⟩
      · exact Or.inr ⟨g, h1⟩
    cases x with
    | resume rows =>
      simp only [runLoop] at hw
      cases hr : bestRow rows with
      | none => rw [hr] at hw; exact Or.inl hw
      | some r =>
        rw [hr] at hw
        dsimp only at hw
        have h4 := ih cv (fnum + 1)
          ⟨pushResume fnum r acc.st, acc.entered ++ [fnum], acc.writes,
           acc.modelsBuilt, acc.optimizersBuilt, acc.loadersBuilt, acc.crashed⟩ w hw
        exact h4
    | trainFold ms =>
      have hsplit3 : ∀ u : FName,
          u ∈ acc.writes ++ (runFold fnum ms).writes ++ [FName.results, FName.results1] →
          u ∈ acc.writes ∨ (∃ f, u = FName.log f) ∨ (∃ f, u = FName.adj f) ∨
            u = FName.results ∨ u = FName.results1 := by
        intro u hu
        rcases List.mem_append.1 hu with h1 | h1
        · rcases List.mem_append.1 h1 with h2 | h2
          · exact Or.inl h2
          · rcases hfold fnum u h2 with h3 | h3
            · exact Or.inr (Or.inl h3)
            · exact Or.inr (Or.inr (Or.inl h3))
        · rcases List.mem_cons.1 h1 with h2 | h2
          · exact Or.inr (Or.inr (Or.inr (Or.inl h2)))
          · exact Or.inr (Or.inr (Or.inr (Or.inr (List.mem_singleton.1 h2))))
      simp only [runLoop] at hw
      cases hm : mkResults (pushTrained fnum (runFold fnum ms) acc.st) with
      | none =>
        rw [hm] at hw
        dsimp only at hw
        rcases List.mem_append.1 hw with h1 | h1
        · exact Or.inl h1
        · rcases hfold fnum w h1 with h2 | h2
          · exact Or.inr (Or.inl h2)
          · exact Or.inr (Or.inr (Or.inl h2))
      | some t =>
        rw [hm] at hw
        cases hm1 : mkResults1 (pushTrained fnum (runFold fnum ms) acc.st) with
        | none =>
          rw [hm1] at hw
          dsimp only at hw
          rcases List.mem_append.1 hw with h1 | h1
          · rcases List.mem_append.1 h1 with h2 | h2
            · exact Or.inl h2
            · rcases hfold fnum w h2 with h3 | h3
              · exact Or.inr (Or.inl h3)
              · exact Or.inr (Or.inr (Or.inl h3))
          · rw [List.mem_singleton.1 h1]
            exact Or.inr (Or.inr (Or.inr (Or.inl rfl)))
        | some t1 =>
          rw [hm1] at hw
          dsimp only at hw
          cases cv with
          | false =>
            simp only [if_neg (by simp : ¬ (false : Bool) = true)] at hw
            exact hsplit3 w (by simpa using hw)
          | true =>
            simp only [if_pos rfl] at hw
            rcases ih true (fnum + 1) _ w hw with h1 | h1
            · exact hsplit3 w (by simpa using h1)
            · exact Or.inr h1

/-- C9. Both torch.save calls are commented out (train.py lines 537 and
546), so a run writes only per-fold logs, per-fold adjacency pickles and
the two summary tables: no model checkpoint model_<fold>.pth is ever
written, hence the resume-skip test at line 383 can never be satisfied by
artifacts this program itself produced. -/
theorem no_model_checkpoint_ever_written (cv : Bool) (inputs : List FoldInput) :
    (∀ f, FName.modelCkpt f ∉ (runLoop cv 1 initAcc inputs).writes) ∧
    (∀ w ∈ (runLoop cv 1 initAcc inputs).writes,
      (∃ f, w = FName.log f) ∨ (∃ f, w = FName.adj f) ∨
        w = FName.results ∨ w = FName.results1) := by
  have hshape := runLoop_writes_shape inputs cv 1 initAcc
  constructor
  · intro f hf
    rcases hshape _ hf with h1 | h1 | h1 | h1 | h1
    · exact absurd h1 (List.not_mem_nil _)
    · obtain ⟨g, hg⟩ := h1
      exact FName.noConfusion hg
    · obtain ⟨g, hg⟩ := h1
      exact FName.noConfusion hg
    · exact FName.noConfusion h1
    · exact FName.noConfusion h1
  · intro w hw
    rcases hshape w hw with h1 | h1
    · exact absurd h1 (List.not_mem_nil _)
    · exact h1

/-- With equal-length column lists, the summary data rows exist, one per
fold, and project back onto the column lists. -/
theorem rowsOf_ok (fs : List ℕ) :
    ∀ (ls : List (WithTop ℚ)) (ss acs gs : List ℚ) (es : List ℕ),
      ls.length = fs.length → ss.length = fs.length → acs.length = fs.length →
      gs.length = fs.length → es.length = fs.length →
      ∃ rows, rowsOf fs ls ss acs gs es = some rows ∧ rows.length = fs.length ∧
        rows.map (fun r => r.best_loss) = ls ∧
        rows.map (fun r => r.best_score) = ss ∧
        rows.map (fun r => r.best_ac_score) = acs ∧
        rows.map (fun r => r.best_f1_score) = gs ∧
        (∀ r ∈ rows, r.fold ≠ none) := by
  induction fs with
  | nil =>
    intro ls ss acs gs es h1 h2 h3 h4 h5
    obtain rfl := List.length_eq_zero.1 h1
    obtain rfl := List.length_eq_zero.1 h2
    obtain rfl := List.length_eq_zero.1 h3
    obtain rfl := List.length_eq_zero.1 h4
    obtain rfl := List.length_eq_zero.1 h5
    exact ⟨[], rfl, rfl, rfl, rfl, rfl, rfl, fun r hr => absurd hr (List.not_mem_nil r)⟩
  | cons f fs ih =>
    intro ls ss acs gs es h1 h2 h3 h4 h5
    cases ls with
    | nil => simp at h1
    | cons l ls =>
      cases ss with
      | nil => simp at h2
      | cons s ss =>
        cases acs with
        | nil => simp at h3
        | cons a acs =>
          cases gs with
          | nil => simp at h4
          | cons g gs =>
            cases es with
            | nil => simp at h5
            | cons e es =>
              obtain ⟨rows, hr, hlen, hp1, hp2, hp3, hp4, hf⟩ :=
                ih ls ss acs gs es (by simpa using h1) (by simpa using h2)
                  (by simpa using h3) (by simpa using h4) (by simpa using h5)
              refine ⟨⟨some f, l, s, a, g, some e⟩ :: rows, ?_, ?_, ?_, ?_, ?_, ?_, ?_⟩
              · rw [rowsOf, hr]
                rfl
              · simp [hlen]
              · simp [hp1]
              · simp [hp2]
              · simp [hp3]
              · simp [hp4]
              · intro r hr2
                rcases List.mem_cons.1 hr2 with h6 | h6
                · rw [h6]
                  simp
                · exact hf r h6

/-- Appending a trained fold keeps the eleven lists aligned and grows the
fold count by one. -/
theorem pushTrained_lens (fnum : ℕ) (fr : FoldRun) (st : RunState) (h : lensOk st) :
    lensOk (pushTrained fnum fr st) ∧
    (pushTrained fnum fr st).folds.length = st.folds.length + 1 := by
  obtain ⟨a1, a2, a3, a4, a5, a6, a7, a8, a9, a10⟩ := h
  refine ⟨⟨?_, ?_, ?_, ?_, ?_, ?_, ?_, ?_, ?_, ?_⟩, ?_⟩ <;>
    simp [pushTrained, a1, a2, a3, a4, a5, a6, a7, a8, a9, a10]

/-- With aligned lists, results.csv is defined: its data rows project onto
the primary column lists and the trailing row is the mean row. -/
theorem mkResults_of_lensOk (st : RunState) (h : lensOk st) :
    ∃ data, mkResults st = some (data ++ [meanRow st.best_losses st.best_scores
        st.best_ac_scores st.best_f1_scores]) ∧
      data.length = st.folds.length ∧
      data.map (fun r => r.best_loss) = st.best_losses ∧
      data.map (fun r => r.best_score) = st.best_scores ∧
      data.map (fun r => r.best_ac_score) = st.best_ac_scores ∧
      data.map (fun r => r.best_f1_score) = st.best_f1_scores ∧
      (∀ r ∈ data, r.fold ≠ none) := by
  obtain ⟨a1, a2, a3, a4, a5, a6, a7, a8, a9, a10⟩ := h
  obtain ⟨rows, hr, hlen, hp1, hp2, hp3, hp4, hf⟩ :=
    rowsOf_ok st.folds st.best_losses st.best_scores st.best_ac_scores
      st.best_f1_scores st.best_epochs a1 a2 a3 a4 a5
  exact ⟨rows, by rw [mkResults, mkTable, hr]; rfl, hlen, hp1, hp2, hp3, hp4, hf⟩

/-- With aligned lists, results_1.csv is defined: its data rows project
onto the secondary column lists and the trailing row is the mean row. -/
theorem mkResults1_of_lensOk (st : RunState) (h : lensOk st) :
    ∃ data, mkResults1 st = some (data ++ [meanRow st.best_losses_1 st.best_scores_1
        st.best_ac_scores_1 st.best_f1_scores_1]) ∧
      data.length = st.folds.length ∧
      data.map (fun r => r.best_loss) = st.best_losses_1 ∧
      data.map (fun r => r.best_score) = st.best_scores_1 ∧
      data.map (fun r => r.best_ac_score) = st.best_ac_scores_1 ∧
      data.map (fun r => r.best_f1_score) = st.best_f1_scores_1 ∧
      (∀ r ∈ data, r.fold ≠ none) := by
  obtain ⟨a1, a2, a3, a4, a5, a6, a7, a8, a9, a10⟩ := h
  obtain ⟨rows, hr, hlen, hp1, hp2, hp3, hp4, hf⟩ :=
    rowsOf_ok st.folds st.best_losses_1 st.best_scores_1 st.best_ac_scores_1
      st.best_f1_scores_1 st.best_epochs_1 a6 a7 a8 a9 a10
  exact ⟨rows, by rw [mkResults1, mkTable, hr]; rfl, hlen, hp1, hp2, hp3, hp4, hf⟩

/-- One trained fold whose two table writes both succeed: the loop either
breaks (cv false) or continues on the accumulated state. -/
theorem runLoop_train_step (cv : Bool) (fnum : ℕ) (acc : RunAcc)
    (ms : List EpochMetrics) (rest : List FoldInput) (t t1 : List SummaryRow)
    (hm : mkResults (pushTrained fnum (runFold fnum ms) acc.st) = some t)
    (hm1 : mkResults1 (pushTrained fnum (runFold fnum ms) acc.st) = some t1) :
    runLoop cv fnum acc (FoldInput.trainFold ms :: rest)
      = if cv then runLoop cv (fnum + 1) (accAfterTrain fnum acc ms) rest
        else accAfterTrain fnum acc ms := by
  simp only [runLoop]
  rw [hm]
  dsimp only
  rw [hm1]
  rfl

/-- Invariant of an all-trained cv run: no crash, lists stay aligned, one
fold row is appended per fold, writes only grow, and after the last fold
the two summary table writes are the final writes. -/
theorem trainedRun_inv (l : List (List EpochMetrics)) :
    ∀ (fnum : ℕ) (acc : RunAcc), acc.crashed = false → lensOk acc.st →
    (runLoop true fnum acc (l.map FoldInput.trainFold)).crashed = false ∧
    lensOk (runLoop true fnum acc (l.map FoldInput.trainFold)).st ∧
    (runLoop true fnum acc (l.map FoldInput.trainFold)).st.folds.length
      = acc.st.folds.length + l.length ∧
    (∃ w, (runLoop true fnum acc (l.map FoldInput.trainFold)).writes
      = acc.writes ++ w) ∧
    (l ≠ [] → ∃ w2, (runLoop true fnum acc (l.map FoldInput.trainFold)).writes
      = w2 ++ [FName.results, FName.results1]) := by
  induction l with
  | nil =>
    intro fnum acc hcr hlens
    exact ⟨hcr, hlens, by simp [runLoop], ⟨[], by simp [runLoop]⟩,
      fun hne => absurd rfl hne⟩
  | cons ms l ih =>
    intro fnum acc hcr hlens
    obtain ⟨hlensT, hlenT⟩ := pushTrained_lens fnum (runFold fnum ms) acc.st hlens
    obtain ⟨d, hm, _⟩ := mkResults_of_lensOk _ hlensT
    obtain ⟨d1, hm1, _⟩ := mkResults1_of_lensOk _ hlensT
    rw [List.map_cons, runLoop_train_step true fnum acc ms _ _ _ hm hm1, if_pos rfl]
    have hcr2 : (accAfterTrain fnum acc ms).crashed = false := hcr
    have hlens2 : lensOk (accAfterTrain fnum acc ms).st := hlensT
    obtain ⟨ih1, ih2, ih3, ⟨w, ih4⟩, ih5⟩ := ih (fnum + 1) (accAfterTrain fnum acc ms)
      hcr2 hlens2
    refine ⟨ih1, ih2, ?_, ?_, ?_⟩
    · rw [ih3]
      have : (accAfterTrain fnum acc ms).st.folds.length = acc.st.folds.length + 1 :=
        hlenT
      rw [this]
      simp
      omega
    · refine ⟨(runFold fnum ms).writes ++ [FName.results, FName.results1] ++ w, ?_⟩
      rw [ih4]
      simp [accAfterTrain]
    · intro hne
      cases l with
      | nil =>
        refine ⟨acc.writes ++ (runFold fnum ms).writes, ?_⟩
        rw [List.map_nil]
        simp [runLoop, accAfterTrain]
      | cons ms2 l2 =>
        exact ih5 (by simp)

/-- An all-trained cv run over an appended input list factors through the
state reached after the first part. -/
theorem runLoop_trained_append (l1 : List (List EpochMetrics)) :
    ∀ (l2 : List FoldInput) (fnum : ℕ) (acc : RunAcc),
      acc.crashed = false → lensOk acc.st →
      runLoop true fnum acc (l1.map FoldInput.trainFold ++ l2)
        = runLoop true (fnum + l1.length)
            (runLoop true fnum acc (l1.map FoldInput.trainFold)) l2 := by
  induction l1 with
  | nil =>
    intro l2 fnum acc hcr hlens
    simp [runLoop]
  | cons ms l1 ih =>
    intro l2 fnum acc hcr hlens
    obtain ⟨hlensT, hlenT⟩ := pushTrained_lens fnum (runFold fnum ms) acc.st hlens
    obtain ⟨d, hm, _⟩ := mkResults_of_lensOk _ hlensT
    obtain ⟨d1, hm1, _⟩ := mkResults1_of_lensOk _ hlensT
    rw [List.map_cons, List.cons_append,
      runLoop_train_step true fnum acc ms _ _ _ hm hm1, if_pos rfl,
      runLoop_train_step true fnum acc ms _ _ _ hm hm1, if_pos rfl,
      ih l2 (fnum + 1) (accAfterTrain fnum acc ms) hcr hlensT]
    have : fnum + 1 + l1.length = fnum + (l1.length + 1) := by omega
    rw [this]
    rfl

/-- The fold loop never removes or rewrites an already issued file write:
the writes of any run extend the starting writes. -/
theorem runLoop_writes_mono (inputs : List FoldInput) :
    ∀ (cv : Bool) (fnum : ℕ) (acc : RunAcc),
      ∃ w, (runLoop cv fnum acc inputs).writes = acc.writes ++ w := by
  induction inputs with
  | nil => exact fun cv fnum acc => ⟨[], by simp [runLoop]⟩
  | cons x rest ih =>
    intro cv fnum acc
    cases x with
    | resume rows =>
      cases hr : bestRow rows with
      | none =>
        refine ⟨[], ?_⟩
        simp only [runLoop]
        rw [hr]
        simp
      | some r =>
        obtain ⟨w, hw⟩ := ih cv (fnum + 1)
          ⟨pushResume fnum r acc.st, acc.entered ++ [fnum], acc.writes,
           acc.modelsBuilt, acc.optimizersBuilt, acc.loadersBuilt, acc.crashed⟩
        refine ⟨w, ?_⟩
        simp only [runLoop]
        rw [hr]
        exact hw
    | trainFold ms =>
      cases hm : mkResults (pushTrained fnum (runFold fnum ms) acc.st) with
      | none =>
        refine ⟨(runFold fnum ms).writes, ?_⟩
        simp only [runLoop]
        rw [hm]
      | some t =>
        cases hm1 : mkResults1 (pushTrained fnum (runFold fnum ms) acc.st) with
        | none =>
          refine ⟨(runFold fnum ms).writes ++ [FName.results], ?_⟩
          simp only [runLoop]
          rw [hm]
          dsimp only
          rw [hm1]
          simp
        | some t1 =>
          rw [runLoop_train_step cv fnum acc ms rest t t1 hm hm1]
          cases cv with
          | false =>
            refine ⟨(runFold fnum ms).writes ++ [FName.results, FName.results1], ?_⟩
            simp [accAfterTrain]
          | true =>
            obtain ⟨w, hw⟩ := ih true (fnum + 1) (accAfterTrain fnum acc ms)
            refine ⟨(runFold fnum ms).writes ++ [FName.results, FName.results1] ++ w, ?_⟩
            rw [if_pos rfl, hw]
            simp [accAfterTrain]

/-- C4 counterexample. A resume-skipped fold completes (its loop body runs
and the loop moves on) without rewriting any summary table: the continue at
train.py line 390 jumps past the table writes at lines 597-598, so after
fold 1 completes no results.csv or results_1.csv write has happened. -/
theorem summary_tables_cex :
    (runLoop true 1 initAcc [FoldInput.resume [rowB]]).entered = [1] ∧
    (runLoop true 1 initAcc [FoldInput.resume [rowB]]).writes = [] := by
  decide

/-- C4 amended. In a run whose folds are all trained (no resume skip), the
run never crashes, after the last fold the final file writes are the two
summary tables, any longer run only appends further writes, and each table
holds exactly one data row per fold plus a trailing mean row whose
best_loss, best_score, best_ac_score and best_f1_score equal the arithmetic
mean of those columns over the data rows (train.py lines 564-598). With a
resume-skipped fold the tables are not rewritten when that fold completes
(see the counterexample), so the claim holds only for trained folds. -/
theorem summary_tables_after_trained_folds (inputs : List (List EpochMetrics))
    (h : inputs ≠ []) :
    (trainedRun inputs).crashed = false ∧
    (∃ w, (trainedRun inputs).writes = w ++ [FName.results, FName.results1]) ∧
    (∀ rest, ∃ w2,
      (runLoop true 1 initAcc ((inputs ++ rest).map FoldInput.trainFold)).writes
        = (trainedRun inputs).writes ++ w2) ∧
    (∃ (data : List SummaryRow) (mean : SummaryRow),
      mkResults (trainedRun inputs).st = some (data ++ [mean]) ∧
      data.length = inputs.length ∧ (∀ r ∈ data, r.fold ≠ none) ∧ mean.fold = none ∧
      mean.best_loss = WithTop.map (fun q => q / (inputs.length : ℚ))
        (data.map (fun r => r.best_loss)).sum ∧
      mean.best_score = (data.map (fun r => r.best_score)).sum / (inputs.length : ℚ) ∧
      mean.best_ac_score
        = (data.map (fun r => r.best_ac_score)).sum / (inputs.length : ℚ) ∧
      mean.best_f1_score
        = (data.map (fun r => r.best_f1_score)).sum / (inputs.length : ℚ)) ∧
    (∃ (data1 : List SummaryRow) (mean1 : SummaryRow),
      mkResults1 (trainedRun inputs).st = some (data1 ++ [mean1]) ∧
      data1.length = inputs.length ∧ (∀ r ∈ data1, r.fold ≠ none) ∧
      mean1.fold = none ∧
      mean1.best_loss = WithTop.map (fun q => q / (inputs.length : ℚ))
        (data1.map (fun r => r.best_loss)).sum ∧
      mean1.best_score = (data1.map (fun r => r.best_score)).sum / (inputs.length : ℚ) ∧
      mean1.best_ac_score
        = (data1.map (fun r => r.best_ac_score)).sum / (inputs.length : ℚ) ∧
      mean1.best_f1_score
        = (data1.map (fun r => r.best_f1_score)).sum / (inputs.length : ℚ)) := by
  have hinit : lensOk initAcc.st := ⟨rfl, rfl, rfl, rfl, rfl, rfl, rfl, rfl, rfl, rfl⟩
  obtain ⟨i1, i2, i3, i4, i5⟩ := trainedRun_inv inputs 1 initAcc rfl hinit
  have i2T : lensOk (trainedRun inputs).st := i2
  have hfl : (trainedRun inputs).st.folds.length = inputs.length := by
    have h3 : (trainedRun inputs).st.folds.length
        = initAcc.st.folds.length + inputs.length := i3
    have h0 : initAcc.st.folds.length = 0 := rfl
    omega
  refine ⟨i1, i5 h, ?_, ?_, ?_⟩
  · intro rest
    rw [List.map_append,
      runLoop_trained_append inputs (rest.map FoldInput.trainFold) 1 initAcc rfl hinit]
    exact runLoop_writes_mono (rest.map FoldInput.trainFold) true
      (1 + inputs.length) (trainedRun inputs)
  · obtain ⟨data, hmk, hdl, hb1, hb2, hb3, hb4, hfold⟩ :=
      mkResults_of_lensOk (trainedRun inputs).st i2T
    obtain ⟨c1, c2, c3, c4, c5, c6, c7, c8, c9, c10⟩ := i2T
    have hdlen : data.length = inputs.length := by rw [hdl, hfl]
    have hl1 : (trainedRun inputs).st.best_losses.length = inputs.length := by
      rw [c1, hfl]
    have hl2 : (trainedRun inputs).st.best_scores.length = inputs.length := by
      rw [c2, hfl]
    have hl3 : (trainedRun inputs).st.best_ac_scores.length = inputs.length := by
      rw [c3, hfl]
    have hl4 : (trainedRun inputs).st.best_f1_scores.length = inputs.length := by
      rw [c4, hfl]
    refine ⟨data, meanRow (trainedRun inputs).st.best_losses
      (trainedRun inputs).st.best_scores (trainedRun inputs).st.best_ac_scores
      (trainedRun inputs).st.best_f1_scores, hmk, hdlen, hfold, rfl, ?_, ?_, ?_, ?_⟩
    · show WithTop.map
        (fun q => q / (((trainedRun inputs).st.best_losses.length : ℕ) : ℚ))
        (trainedRun inputs).st.best_losses.sum = _
      rw [hl1, hb1]
    · show (trainedRun inputs).st.best_scores.sum
        / (((trainedRun inputs).st.best_scores.length : ℕ) : ℚ) = _
      rw [hl2, hb2]
    · show (trainedRun inputs).st.best_ac_scores.sum
        / (((trainedRun inputs).st.best_ac_scores.length : ℕ) : ℚ) = _
      rw [hl3, hb3]
    · show (trainedRun inputs).st.best_f1_scores.sum
        / (((trainedRun inputs).st.best_f1_scores.length : ℕ) : ℚ) = _
      rw [hl4, hb4]
  · obtain ⟨data1, hmk, hdl, hb1, hb2, hb3, hb4, hfold⟩ :=
      mkResults1_of_lensOk (trainedRun inputs).st i2T
    obtain ⟨c1, c2, c3, c4, c5, c6, c7, c8, c9, c10⟩ := i2T
    have hdlen : data1.length = inputs.length := by rw [hdl, hfl]
    have hl1 : (trainedRun inputs).st.best_losses_1.length = inputs.length := by
      rw [c6, hfl]
    have hl2 : (trainedRun inputs).st.best_scores_1.length = inputs.length := by
      rw [c7, hfl]
    have hl3 : (trainedRun inputs).st.best_ac_scores_1.length = inputs.length := by
      rw [c8, hfl]
    have hl4 : (trainedRun inputs).st.best_f1_scores_1.length = inputs.length := by
      rw [c9, hfl]
    refine ⟨data1, meanRow (trainedRun inputs).st.best_losses_1
      (trainedRun inputs).st.best_scores_1 (trainedRun inputs).st.best_ac_scores_1
      (trainedRun inputs).st.best_f1_scores_1, hmk, hdlen, hfold, rfl, ?_, ?_, ?_, ?_⟩
    · show WithTop.map
        (fun q => q / (((trainedRun inputs).st.best_losses_1.length : ℕ) : ℚ))
        (trainedRun inputs).st.best_losses_1.sum = _
      rw [hl1, hb1]
    · show (trainedRun inputs).st.best_scores_1.sum
        / (((trainedRun inputs).st.best_scores_1.length : ℕ) : ℚ) = _
      rw [hl2, hb2]
    · show (trainedRun inputs).st.best_ac_scores_1.sum
        / (((trainedRun inputs).st.best_ac_scores_1.length : ℕ) : ℚ) = _
      rw [hl3, hb3]
    · show (trainedRun inputs).st.best_f1_scores_1.sum
        / (((trainedRun inputs).st.best_f1_scores_1.length : ℕ) : ℚ) = _
      rw [hl4, hb4]

/-- Concrete single trained fold: the run ends with the two summary table
writes and both tables hold one data row plus the mean row. -/
theorem summary_tables_after_trained_folds_witness :
    (([[emA]] : List (List EpochMetrics)) ≠ []) ∧
    ((trainedRun [[emA]]).crashed = false ∧
    (∃ w, (trainedRun [[emA]]).writes = w ++ [FName.results, FName.results1]) ∧
    (∀ rest, ∃ w2,
      (runLoop true 1 initAcc ((([[emA]] : List (List EpochMetrics)) ++ rest).map
        FoldInput.trainFold)).writes = (trainedRun [[emA]]).writes ++ w2) ∧
    (∃ (data : List SummaryRow) (mean : SummaryRow),
      mkResults (trainedRun [[emA]]).st = some (data ++ [mean]) ∧
      data.length = ([[emA]] : List (List EpochMetrics)).length ∧
      (∀ r ∈ data, r.fold ≠ none) ∧ mean.fold = none ∧
      mean.best_loss = WithTop.map
        (fun q => q / ((([[emA]] : List (List EpochMetrics)).length : ℕ) : ℚ))
        (data.map (fun r => r.best_loss)).sum ∧
      mean.best_score = (data.map (fun r => r.best_score)).sum
        / ((([[emA]] : List (List EpochMetrics)).length : ℕ) : ℚ) ∧
      mean.best_ac_score = (data.map (fun r => r.best_ac_score)).sum
        / ((([[emA]] : List (List EpochMetrics)).length : ℕ) : ℚ) ∧
      mean.best_f1_score = (data.map (fun r => r.best_f1_score)).sum
        / ((([[emA]] : List (List EpochMetrics)).length : ℕ) : ℚ)) ∧
    (∃ (data1 : List SummaryRow) (mean1 : SummaryRow),
      mkResults1 (trainedRun [[emA]]).st = some (data1 ++ [mean1]) ∧
      data1.length = ([[emA]] : List (List EpochMetrics)).length ∧
      (∀ r ∈ data1, r.fold ≠ none) ∧ mean1.fold = none ∧
      mean1.best_loss = WithTop.map
        (fun q => q / ((([[emA]] : List (List EpochMetrics)).length : ℕ) : ℚ))
        (data1.map (fun r => r.best_loss)).sum ∧
      mean1.best_score = (data1.map (fun r => r.best_score)).sum
        / ((([[emA]] : List (List EpochMetrics)).length : ℕ) : ℚ) ∧
      mean1.best_ac_score = (data1.map (fun r => r.best_ac_score)).sum
        / ((([[emA]] : List (List EpochMetrics)).length : ℕ) : ℚ) ∧
      mean1.best_f1_score = (data1.map (fun r => r.best_f1_score)).sum
        / ((([[emA]] : List (List EpochMetrics)).length : ℕ) : ℚ))) :=
  ⟨by simp, summary_tables_after_trained_folds [[emA]] (by simp)⟩
